import Mathlib

/-
Verification of search_viz.py (bin/search/search_viz.py).

Strings are embedded as `List Char`.  The script builds three regex templates
around a search pattern and runs them with the third-party `regex` engine; the
embedding translates the semantics of exactly those templates (anchored match,
lazy and greedy repetition with backtracking, `\s` and `\S` classes, lookaround
in the full-token template, the trailing `(.*)$` whose dot does not cross a
newline and whose anchor also matches just before one final newline) into
recursive functions on `List Char`.  Loops of the script that consume at least
one character per iteration are written with an explicit fuel argument that is
large enough by construction, so every definition evaluates by kernel
reduction.
-/

/-- Whitespace test embedding the `\s` class of the regex engine on unicode
strings (ASCII whitespace, NEL, NBSP, and the unicode space separators). -/
def isWS (c : Char) : Bool :=
  c == ' ' || c == '\t' || c == '\n' || c == '\r' || c == '\x0b' || c == '\x0c' ||
  c == '\x1c' || c == '\x1d' || c == '\x1e' || c == '\x1f' || c == '\x85' || c == '\xa0' ||
  c == ' ' || (' ' ≤ c && c ≤ ' ') || c == ' ' || c == ' ' ||
  c == ' ' || c == ' ' || c == '　'

/-- Character comparison used when matching the literal search pattern.  The
script passes `regex.IGNORECASE` when `--ignore_case` is given and
`regex.FULLCASE` (which alone has no effect, so: exact comparison) otherwise.
Case folding is embedded at the ASCII level of `Char.toLower`. -/
def chEq (ic : Bool) (a b : Char) : Bool :=
  if ic then a.toLower == b.toLower else a == b

/-- Python substring test `search_term in line` (the pre-filter in `main`). -/
def hasSeq (pat : List Char) : List Char → Bool
  | [] => pat.isEmpty
  | c :: rest => pat.isPrefixOf (c :: rest) || hasSeq pat rest

/-- Match the literal pattern `pat` at the start of `text`; returns the matched
text characters (which may differ from `pat` in case when `ic` is set) and the
remainder. -/
def litMatch (ic : Bool) : List Char → List Char → Option (List Char × List Char)
  | [], text => some ([], text)
  | _ :: _, [] => none
  | p :: ps, c :: cs =>
      if chEq ic p c then (litMatch ic ps cs).map (fun pr => (c :: pr.1, pr.2)) else none

/-- Semantics of the trailing `(.*)$` of the templates: `.` does not match a
newline and `$` matches at the end of the string or just before one final
newline.  Returns the text captured by the group (a final newline is left out
of the match), or `none` when some newline is not final. -/
def dolMatch (u : List Char) : Option (List Char) :=
  if !(u.contains '\n') then some u
  else if u.getLast? == some '\n' && !(u.dropLast.contains '\n') then some u.dropLast
  else none

/-- One global single-character substitution, embedding
`regex.sub(c, rep, s)` for the one-character patterns used by `guard_html`. -/
def substAll (c : Char) (rep : List Char) : List Char → List Char
  | [] => []
  | a :: rest => (if a == c then rep else [a]) ++ substAll c rep rest

/-- Embeds `guard_html`: four global substitutions, ampersand first. -/
def guard_html (s : List Char) : List Char :=
  substAll '"' "&quot;".data
    (substAll '>' "&gt;".data
      (substAll '<' "&lt;".data
        (substAll '&' "&amp;".data s)))

/-- The token-background opening markup emitted by the highlighter. -/
def ylOpen : List Char := "<span style=\"background-color:yellow;\">".data

/-- The match-color opening markup emitted by the highlighter. -/
def redOpen : List Char := "<span style=\"color:red;\">".data

/-- The closing markup emitted by the highlighter. -/
def spanClose : List Char := "</span>".data

/-- Hex digit test for the `[0-9A-Fa-f]` class of `decode_unicode_escape`. -/
def isHexDigit (c : Char) : Bool :=
  ('0' ≤ c && c ≤ '9') || ('A' ≤ c && c ≤ 'F') || ('a' ≤ c && c ≤ 'f')

/-- Value of a hex digit. -/
def hexVal (c : Char) : Nat :=
  if '0' ≤ c && c ≤ '9' then c.toNat - 48
  else if 'A' ≤ c && c ≤ 'F' then c.toNat - 55
  else c.toNat - 87

/-- Does the text start with a backslash-u escape with exactly four hex
digits (the `\\u([0-9A-Fa-f]{4,4})` part of the decoder regex)?  If so return
the code point value and the rest. -/
def escAt : List Char → Option (Nat × List Char)
  | '\\' :: 'u' :: h1 :: h2 :: h3 :: h4 :: rest =>
      if isHexDigit h1 && isHexDigit h2 && isHexDigit h3 && isHexDigit h4 then
        some ((((hexVal h1 * 16 + hexVal h2) * 16 + hexVal h3) * 16 + hexVal h4), rest)
      else none
  | _ => none

/-- One anchored match of `(.*?)\\u([0-9A-Fa-f]{4,4})(.*)$`: leftmost escape
such that the trailing `(.*)$` also matches (the lazy leading group cannot
cross a newline).  Returns the three captures (with the code point decoded). -/
def findEscape : List Char → Option (List Char × Nat × List Char)
  | [] => none
  | c :: cs =>
      match escAt (c :: cs) with
      | some vrest =>
          (match dolMatch vrest.2 with
           | some g3 => some ([], vrest.1, g3)
           | none =>
               if c == '\n' then none
               else (findEscape cs).map (fun r => (c :: r.1, r.2.1, r.2.2)))
      | none =>
          if c == '\n' then none
          else (findEscape cs).map (fun r => (c :: r.1, r.2.1, r.2.2))

/-- Fuel-indexed loop of `decode_unicode_escape`; each replacement shortens the
string by at least five characters, so fuel `s.length + 1` is plenty. -/
def decodeF : Nat → List Char → List Char
  | 0, s => s
  | fuel + 1, s =>
      match findEscape s with
      | none => s
      | some r => decodeF fuel (r.1 ++ [Char.ofNat r.2.1] ++ r.2.2)

/-- Embeds `decode_unicode_escape`: repeatedly replace the first
`\uXXXX` escape (four hex digits) until none matches. -/
def decode_unicode_escape (s : List Char) : List Char :=
  decodeF (s.length + 1) s

/-- Does the string contain a four-hex-digit backslash-u escape anywhere? -/
def hasUEscape : List Char → Bool
  | [] => false
  | c :: cs => (escAt (c :: cs)).isSome || hasUEscape cs

/-- Characters escaped by `regex.escape` (the special characters of the
engine, including whitespace). -/
def isMeta (c : Char) : Bool :=
  c == '\\' || c == '(' || c == ')' || c == '[' || c == ']' || c == '\x7b' || c == '\x7d' ||
  c == '?' || c == '*' || c == '+' || c == '-' || c == '|' || c == '^' || c == '$' ||
  c == '.' || c == '&' || c == '~' || c == '#' || c == ' ' || c == '\t' || c == '\n' ||
  c == '\r' || c == '\x0b' || c == '\x0c'

/-- Embeds `regex.escape`: backslash-escape every special character. -/
def regexEscape : List Char → List Char
  | [] => []
  | c :: cs => (if isMeta c then ['\\', c] else [c]) ++ regexEscape cs

/-- Word characters; a backslash followed by one of these is a special escape
of the engine (such as a digit or word class), not a literal. -/
def isWordChar (c : Char) : Bool := c.isAlpha || c.isDigit || c == '_'

/-- Interpret a pattern string that denotes a plain literal: a sequence of
non-special characters and backslash-escaped non-word characters, as produced
by `regex.escape`.  Returns `none` for any other pattern; the highlighter
below treats such general regex patterns as out of the model. -/
def litOf : List Char → Option (List Char)
  | [] => some []
  | c :: cs =>
      if c == '\\' then
        match cs with
        | [] => none
        | c2 :: cs2 => if isWordChar c2 then none else (litOf cs2).map (fun l => c2 :: l)
      else if isMeta c then none
      else (litOf cs).map (fun l => c :: l)

/-- Embeds whether compiling the search pattern inside the fixed highlighter
templates raises a regex error.  The surrounding template text is balanced, so
compilation fails exactly when the inserted fragment is unbalanced: an
unclosed character class, unbalanced groups, or a dangling backslash. -/
def patBadAux : List Char → Nat → Bool → Bool
  | [], d, inCls => inCls || d != 0
  | c :: rest, d, inCls =>
      if c == '\\' then
        match rest with
        | [] => true
        | _ :: rest2 => patBadAux rest2 d inCls
      else if inCls then
        (if c == ']' then patBadAux rest d false else patBadAux rest d inCls)
      else if c == '[' then patBadAux rest d true
      else if c == '(' then patBadAux rest (d + 1) inCls
      else if c == ')' then (if d == 0 then true else patBadAux rest (d - 1) inCls)
      else patBadAux rest d inCls

/-- Is the search pattern syntactically invalid in the highlighter templates? -/
def patBad (p : List Char) : Bool := patBadAux p 0 false

/-- One anchored match of the inner template `(.*?)(T)(.*)$` for a literal
pattern `T`: leftmost occurrence of `T` (the lazy group cannot cross a
newline) whose tail admits `(.*)$`.  Captures the three groups. -/
def innerFind (ic : Bool) (T : List Char) : List Char → Option (List Char × List Char × List Char)
  | [] =>
      match litMatch ic T [] with
      | some mr =>
          (match dolMatch mr.2 with
           | some g3 => some ([], mr.1, g3)
           | none => none)
      | none => none
  | c :: cs =>
      match litMatch ic T (c :: cs) with
      | some mr =>
          (match dolMatch mr.2 with
           | some g3 => some ([], mr.1, g3)
           | none =>
               if c == '\n' then none
               else (innerFind ic T cs).map (fun r => (c :: r.1, r.2.1, r.2.2)))
      | none =>
          if c == '\n' then none
          else (innerFind ic T cs).map (fun r => (c :: r.1, r.2.1, r.2.2))

/-- Semantics of `(\S*\s|\S*)(.*)$` after the matched pattern, with the
backtracking order of the engine: the first alternative greedily takes the
non-whitespace run plus one whitespace character (only the full run can be
followed by whitespace); if the trailing `(.*)$` fails there, the second
alternative takes the run alone.  Returns the fourth and fifth captures. -/
def tailMatch (u : List Char) : Option (List Char × List Char) :=
  let k := (u.takeWhile (fun c => !isWS c)).length
  if k < u.length then
    match dolMatch (u.drop (k + 1)) with
    | some g5 => some (u.take (k + 1), g5)
    | none =>
        match dolMatch (u.drop k) with
        | some g5 => some (u.take k, g5)
        | none => none
  else
    match dolMatch (u.drop k) with
    | some g5 => some (u.take k, g5)
    | none => none

/-- The `(\s?\S*?)(T)` part of the substring template scanned inside one
token: lazily extend the non-whitespace group until the literal pattern
matches and the tail succeeds.  Returns the group, the matched text, and the
two tail captures. -/
def scanTok (ic : Bool) (T : List Char) : List Char → Option (List Char × List Char × List Char × List Char)
  | [] =>
      match litMatch ic T [] with
      | some mr =>
          (match tailMatch mr.2 with
           | some g45 => some ([], mr.1, g45.1, g45.2)
           | none => none)
      | none => none
  | c :: cs =>
      match litMatch ic T (c :: cs) with
      | some mr =>
          (match tailMatch mr.2 with
           | some g45 => some ([], mr.1, g45.1, g45.2)
           | none =>
               if isWS c then none
               else (scanTok ic T cs).map (fun r => (c :: r.1, r.2.1, r.2.2.1, r.2.2.2)))
      | none =>
          if isWS c then none
          else (scanTok ic T cs).map (fun r => (c :: r.1, r.2.1, r.2.2.1, r.2.2.2))

/-- First-preferred choice between two attempts of the backtracking engine. -/
def orOpt {α : Type} (a b : Option α) : Option α :=
  match a with
  | some r => some r
  | none => b

/-- One anchored match of the substring template
`(.*?)(\s?\S*?)(T)(\S*\s|\S*)(.*)$` for a literal pattern `T`, with the
backtracking order of the engine: the leading lazy group grows one character
at a time (never across a newline); at each position the greedy `\s?` first
consumes one whitespace character if present, then the token scan runs.
Captures the five groups. -/
def outerFindSub (ic : Bool) (T : List Char) : List Char → Option (List Char × List Char × List Char × List Char × List Char)
  | [] => (scanTok ic T []).map (fun r => ([], r.1, r.2.1, r.2.2.1, r.2.2.2))
  | c :: cs =>
      orOpt (if isWS c then (scanTok ic T cs).map (fun r => ([], c :: r.1, r.2.1, r.2.2.1, r.2.2.2)) else none)
        (orOpt ((scanTok ic T (c :: cs)).map (fun r => ([], r.1, r.2.1, r.2.2.1, r.2.2.2)))
          (if c == '\n' then none
           else (outerFindSub ic T cs).map (fun r => (c :: r.1, r.2.1, r.2.2.1, r.2.2.2))))

/-- The `(?!\S)` lookahead after the matched pattern in the full-token
template: end of text or a whitespace character. -/
def ftLookahead (v : List Char) : Bool :=
  match v with
  | [] => true
  | c :: _ => isWS c

/-- One attempt of the full-token template at a fixed split: `b` whitespace
characters for the greedy `(\s*)` group, then the literal pattern, the
`(?!\S)` lookahead, the trailing greedy `(\s*)` (only its full run can be
followed by a successful `(.*)$`), and `(.*)$`. -/
def ftTry (ic : Bool) (T : List Char) (u : List Char) (b : Nat) : Option (List Char × List Char × List Char × List Char) :=
  match litMatch ic T (u.drop b) with
  | some mr =>
      if ftLookahead mr.2 then
        match dolMatch (mr.2.dropWhile isWS) with
        | some g5 => some (u.take b, mr.1, mr.2.takeWhile isWS, g5)
        | none => none
      else none
  | none => none

/-- Greedy descent for the leading `(\s*)` group of the full-token template:
try the longest whitespace run first.  Consuming no whitespace needs the
`(?<!\S)` lookbehind, recorded in `ok0` (start of text or the previous
character is whitespace). -/
def ftGo (ic : Bool) (T : List Char) (ok0 : Bool) (u : List Char) : Nat → Option (List Char × List Char × List Char × List Char)
  | 0 => if ok0 then ftTry ic T u 0 else none
  | b + 1 =>
      match ftTry ic T u (b + 1) with
      | some r => some r
      | none => ftGo ic T ok0 u b

/-- All attempts of the full-token template at one position of the leading
lazy group. -/
def ftAt (ic : Bool) (T : List Char) (ok0 : Bool) (u : List Char) : Option (List Char × List Char × List Char × List Char) :=
  ftGo ic T ok0 u (u.takeWhile isWS).length

/-- One anchored match of the full-token template
`(.*?)(\s*)(?<!\S)(T)(?!\S)(\s*)(.*)$` for a literal pattern `T`.
Captures the five groups. -/
def outerFindFT (ic : Bool) (T : List Char) (ok0 : Bool) : List Char → Option (List Char × List Char × List Char × List Char × List Char)
  | [] =>
      match ftAt ic T ok0 [] with
      | some r => some ([], r.1, r.2.1, r.2.2.1, r.2.2.2)
      | none => none
  | c :: cs =>
      match ftAt ic T ok0 (c :: cs) with
      | some r => some ([], r.1, r.2.1, r.2.2.1, r.2.2.2)
      | none =>
          if c == '\n' then none
          else (outerFindFT ic T (isWS c) cs).map (fun r => (c :: r.1, r.2.1, r.2.2.1, r.2.2.2))

/-- The inner while loop of `highlight_search_term_tokens_in_text`: repeated
matches of `(.*?)(T)(.*)$` inside the remainder of the current token, each
emitting the escaped leading text and the escaped match wrapped in the
match-color markup; the escaped leftover is emitted when no match remains.
Each iteration consumes at least one character when `T` is nonempty, so fuel
`rest2.length + 1` is plenty; on an empty pattern the script would loop
forever, which the fuel cuts off. -/
def innerLoopF (ic : Bool) (T : List Char) : Nat → List Char → List Char × Nat
  | 0, rest2 => (guard_html rest2, 0)
  | fuel + 1, rest2 =>
      match innerFind ic T rest2 with
      | none => (guard_html rest2, 0)
      | some r =>
          let rec2 := innerLoopF ic T fuel r.2.2
          (guard_html r.1 ++ redOpen ++ guard_html r.2.1 ++ spanClose ++ rec2.1, rec2.2 + 1)

/-- Dispatch on `full_token_only_p` between the two outer templates. -/
def outerFind (ic ftop : Bool) (T : List Char) (rest : List Char) : Option (List Char × List Char × List Char × List Char × List Char) :=
  if ftop then outerFindFT ic T true rest else outerFindSub ic T rest

/-- The outer while loop of `highlight_search_term_tokens_in_text`: per
iteration emit the escaped text before the token, open the token-background
markup, emit the escaped token head and the escaped match in match-color
markup, run the inner loop on the fourth capture, close the token markup, and
continue after the token; when no match remains emit the escaped leftover.
Fuel as in the inner loop. -/
def outerLoopF (ic ftop : Bool) (T : List Char) : Nat → List Char → List Char × Nat
  | 0, rest => (guard_html rest, 0)
  | fuel + 1, rest =>
      match outerFind ic ftop T rest with
      | none => (guard_html rest, 0)
      | some g =>
          let inner := innerLoopF ic T (g.2.2.2.1.length + 1) g.2.2.2.1
          let recr := outerLoopF ic ftop T fuel g.2.2.2.2
          (guard_html g.1 ++ ylOpen ++ guard_html g.2.1 ++ redOpen ++ guard_html g.2.2.1 ++ spanClose
             ++ inner.1 ++ spanClose ++ recr.1,
           1 + inner.2 + recr.2)

/-- Embeds `highlight_search_term_tokens_in_text`.  If the constructed
template does not compile (the try/except around the trial match), the script
prints a diagnostic and returns the original text with zero matches.  For a
pattern denoting a plain literal (always the case in non-regex mode, where
`main` passes `regex.escape` of the term) the two loops above run.  A
syntactically valid pattern that is not a plain literal is a general regex
whose engine semantics are outside this model; no claim depends on the value
returned on that branch. -/
def highlight_search_term_tokens_in_text (search_term : List Char) (text : List Char)
    (ignore_case : Bool) (full_token_only_p : Bool) : List Char × Nat :=
  if patBad search_term then (text, 0)
  else
    match litOf search_term with
    | some T => outerLoopF ignore_case full_token_only_p T (text.length + 1) text
    | none => (text, 0)

/-- Command-line arguments of the script that the scan depends on.  The input
file is embedded as the list of lines produced by file iteration (each line
keeps its trailing newline except possibly the last), the reference file
likewise. -/
structure Args where
  input_lines : List (List Char)
  ref_lines : Option (List (List Char))
  search_term : List (List Char)
  max_n_examples : Option Int
  ignore_case : Bool
  regex : Bool

/-- The two aggregation dictionaries of `main`, embedded as total functions
with default values zero and the empty list. -/
structure ScanState where
  counts : List Char → Nat
  rows : List Char → List (List Char)

/-- The initial empty aggregation state. -/
def initState : ScanState := ⟨fun _ => 0, fun _ => []⟩

/-- Decimal digits of a number, for the f-string interpolation of naturals. -/
def decDigits : Nat → Nat → List Char
  | 0, _ => []
  | fuel + 1, n =>
      if n < 10 then [Char.ofNat (48 + n)]
      else decDigits fuel (n / 10) ++ [Char.ofNat (48 + n % 10)]

/-- Interpolation of a natural number in an f-string. -/
def natToDec (n : Nat) : List Char := decDigits (n + 1) n

/-- Python `str.strip()`: remove leading and trailing whitespace. -/
def pStrip (s : List Char) : List Char :=
  ((s.dropWhile isWS).reverse.dropWhile isWS).reverse

/-- The reference ID paired with the line at zero-based position `i`:
`f_ref.readline().strip()` when a reference file is given (reading past its
end yields the empty string), `None` otherwise. -/
def refOf (refs : Option (List (List Char))) (i : Nat) : Option (List Char) :=
  refs.map (fun rs => pStrip ((rs.drop i).headD []))

/-- The example row f-string of `main`: line number, reference ID (the
`ref if ref else ""` interpolation is the empty string for a missing
reference and otherwise the reference itself), and the highlighted line. -/
def rowFmt (lineNo : Nat) (refOpt : Option (List Char)) (hl : List Char) : List Char :=
  "<tr><td align=\"right\" style=\"color:#AAAAAA;\">".data ++ natToDec lineNo ++
  "</td><td>&nbsp;</td><td><nobr>".data ++
  (match refOpt with | none => [] | some r => r) ++
  "</nobr></td><td>&nbsp;</td><td>".data ++ hl ++ "</td></tr>".data

/-- The example cap test of `main`: no cap, or the stored count is below it. -/
def capOK (maxN : Option Int) (cnt : Nat) : Bool :=
  match maxN with
  | none => true
  | some v => decide ((cnt : Int) < v)

/-- The highlighter call in the scanning loop of `main`: the pattern is the
raw decoded term under `--regex` and its `regex.escape` otherwise; the
`full_token_only_p` argument is omitted at this call site, so its declared
default `False` applies. -/
def scanHighlight (ic rxf : Bool) (t line : List Char) : List Char × Nat :=
  highlight_search_term_tokens_in_text (if rxf then t else regexEscape t) line ic false

/-- Processing of one (line, term) pair in the scanning loop of `main`:
pre-filter (always highlight under `--ignore_case` or `--regex`, otherwise
only when the literal term occurs in the line), then record an example row
when there is at least one match and the cap test on the stored total match
count passes, then add the match count to the running total. -/
def procTerm (ic rxf : Bool) (maxN : Option Int) (lineNo : Nat) (refOpt : Option (List Char))
    (line : List Char) (st : ScanState) (t : List Char) : ScanState :=
  if ic || rxf || hasSeq t line then
    let hn := scanHighlight ic rxf t line
    let st1 :=
      if hn.2 != 0 && capOK maxN (st.counts t) then
        { st with rows := fun k => if k = t then st.rows t ++ [rowFmt lineNo refOpt hn.1] else st.rows k }
      else st
    { st1 with counts := fun k => if k = t then st1.counts t + hn.2 else st1.counts k }
  else st

/-- Processing of one input line: the inner loop over the search terms. -/
def procLine (ic rxf : Bool) (maxN : Option Int) (lineNo : Nat) (refOpt : Option (List Char))
    (line : List Char) (terms : List (List Char)) (st : ScanState) : ScanState :=
  terms.foldl (procTerm ic rxf maxN lineNo refOpt line) st

/-- The scanning loop of `main` over the input lines, with the running
zero-based position (the printed line number is one greater) and the
reference file consumed in lockstep. -/
def scanLoop (ic rxf : Bool) (maxN : Option Int) (refs : Option (List (List Char)))
    (terms : List (List Char)) : Nat → List (List Char) → ScanState → ScanState
  | _, [], st => st
  | i, l :: ls, st =>
      scanLoop ic rxf maxN refs terms (i + 1) ls (procLine ic rxf maxN (i + 1) (refOf refs i) l terms st)

/-- The decoded search terms of a run, in command-line order. -/
def decodedTerms (a : Args) : List (List Char) :=
  a.search_term.map decode_unicode_escape

/-- The aggregation state of `main` after scanning the whole input file. -/
def runScan (a : Args) : ScanState :=
  scanLoop a.ignore_case a.regex a.max_n_examples a.ref_lines (decodedTerms a) 0 a.input_lines initState

/-- The total match count reported for a term, both in the report summary and
on the diagnostic stream (`main` prints `count_dict[search_term]` in both). -/
def reportedCount (a : Args) (t : List Char) : Nat := (runScan a).counts t

/-- Sum over all input lines of the per-line match count returned by the
highlighter for a term. -/
def hlTotal (ic rxf : Bool) (t : List Char) (lines : List (List Char)) : Nat :=
  (lines.map (fun l => (scanHighlight ic rxf t l).2)).sum

/-- Reference per-term recording trace: walking the lines with the running
total match count of the term, an example row is emitted exactly when the
highlighter reports at least one match and the cap test on the running total
passes; the count then grows by the match count. -/
def rowsByCount (ic rxf : Bool) (maxN : Option Int) (refs : Option (List (List Char)))
    (t : List Char) : Nat → Nat → List (List Char) → List (List Char)
  | _, _, [] => []
  | i, cnt, l :: ls =>
      (if (scanHighlight ic rxf t l).2 != 0 && capOK maxN cnt then
         [rowFmt (i + 1) (refOf refs i) (scanHighlight ic rxf t l).1]
       else []) ++
      rowsByCount ic rxf maxN refs t (i + 1) (cnt + (scanHighlight ic rxf t l).2) ls

/-- Uppercase hex digits of a number, for the `{ord(c):04X}` interpolation. -/
def hexDigits : Nat → Nat → List Char
  | 0, _ => []
  | fuel + 1, n =>
      if n == 0 then []
      else hexDigits fuel (n / 16) ++
        [if n % 16 < 10 then Char.ofNat (48 + n % 16) else Char.ofNat (55 + n % 16)]

/-- The `{ord(c):04X}` interpolation: uppercase hex, zero-padded to width 4. -/
def hex4 (n : Nat) : List Char :=
  let h := hexDigits 8 n
  List.replicate (4 - h.length) '0' ++ h

/-- Embeds `char_unicode_name_rows`: one table row per character with the
character itself, its code point, and its unicode name.  The name lookup
`unicodedata.name(c, "")` is external data, passed in as a function. -/
def char_unicode_name_rows (nameFn : Char → List Char) (s : List Char) : List (List Char) :=
  s.map (fun c =>
    "<tr><td>".data ++ [c] ++ "</td><td>U+".data ++ hex4 c.toNat ++
    "</td><td>".data ++ nameFn c ++ "</td></tr>".data)

/-- Embeds the truth value of `regex.match(r'[ -~]+', search_term)`
in `main`: the match is anchored only at the start, so it succeeds exactly
when a nonempty run of printable ASCII characters starts the term, that is,
when the first character lies in the class. -/
def asciiHeadCheck (t : List Char) : Bool :=
  !(t.takeWhile (fun c => ' ' ≤ c && c ≤ '~')).isEmpty

/-- The summary output of `main` for one term in the literal branch. -/
def termSummaryLiteral (ic : Bool) (n : Nat) (t : List Char) : List Char :=
  "<b>Search term:</b> ".data ++ t ++ " &nbsp; (".data ++
  (if ic then "case-insensitive, ".data else []) ++
  (if ic then "regex, ".data else []) ++
  "found ".data ++ natToDec n ++ " ".data ++
  (if n == 1 then "instance".data else "instances".data) ++ ")".data

/-- The summary output of `main` for one term in the table branch. -/
def termSummaryTabled (ic : Bool) (n : Nat) (nameFn : Char → List Char) (t : List Char) : List Char :=
  "<b>Search term:</b> &nbsp; (".data ++
  (if ic then "case-insensitive, ".data else []) ++
  (if ic then "regex, ".data else []) ++
  "found ".data ++ natToDec n ++ " ".data ++
  (if n == 1 then "instance".data else "instances".data) ++ ")".data ++
  "<table>".data ++
  (char_unicode_name_rows nameFn t).foldr (fun r acc => "    ".data ++ r ++ acc) [] ++
  "</table>".data

/-- The summary output of `main` for one term: the term is written literally
when the printable-ASCII check succeeds, otherwise only through the character
table.  Both qualifier clauses are computed from `args.ignore_case` in the
source (`case_clause` and `regex_clase`); the `regex` flag is passed here for
the statements about it but is not read, exactly as in the source. -/
def termSummary (ic rxf : Bool) (n : Nat) (nameFn : Char → List Char) (t : List Char) : List Char :=
  if asciiHeadCheck t then termSummaryLiteral ic n t
  else termSummaryTabled ic n nameFn t

/-- The per-term report section of `main`: paragraph break, summary,
paragraph break, then the table of stored example rows. -/
def renderTermSection (ic rxf : Bool) (nameFn : Char → List Char) (st : ScanState) (t : List Char) : List Char :=
  "<p>\n".data ++ termSummary ic rxf (st.counts t) nameFn t ++ "<p>\n".data ++
  "<table>".data ++ (st.rows t).foldr (fun r acc => "    ".data ++ r ++ acc) [] ++ "</table>".data

/-- The body of the generated report between the fixed HTML head and foot:
one section per search term, in command-line order. -/
def renderBody (a : Args) (nameFn : Char → List Char) : List Char :=
  (decodedTerms a).foldr (fun t acc => renderTermSection a.ignore_case a.regex nameFn (runScan a) t ++ acc) []

/-- A successful anchored literal match in exact-case mode means the pattern
starts the text. -/
theorem litMatch_prefixOf (T : List Char) : ∀ (u : List Char) (p : List Char × List Char),
    litMatch false T u = some p → T.isPrefixOf u = true := by
  induction T with
  | nil => intro u p _; simp [List.isPrefixOf]
  | cons t ts ih =>
      intro u p h
      cases u with
      | nil => simp [litMatch] at h
      | cons c cs =>
          by_cases htc : chEq false t c = true
          · have htc2 : t = c := by simpa [chEq] using htc
            subst htc2
            simp only [litMatch, htc, if_true, Option.map_eq_some'] at h
            obtain ⟨pr, hpr, _⟩ := h
            simp [List.isPrefixOf, ih cs pr hpr]
          · simp [litMatch, htc] at h

/-- Contrapositive form used by the zero-match argument. -/
theorem litMatch_none_of_no_prefix (T u : List Char) (h : T.isPrefixOf u = false) :
    litMatch false T u = none := by
  cases hm : litMatch false T u with
  | none => rfl
  | some p =>
      have := litMatch_prefixOf T u p hm
      rw [h] at this
      cases this

/-- A term that occurs nowhere in the text is not found by the token scan. -/
theorem scanTok_none (T : List Char) : ∀ w, hasSeq T w = false → scanTok false T w = none := by
  intro w
  induction w with
  | nil =>
      intro h
      simp only [hasSeq] at h
      cases T with
      | nil => simp at h
      | cons t ts => rfl
  | cons c cs ih =>
      intro h
      simp only [hasSeq, Bool.or_eq_false_iff] at h
      obtain ⟨h1, h2⟩ := h
      rw [scanTok, litMatch_none_of_no_prefix T (c :: cs) h1, ih h2]
      simp

/-- A term that occurs nowhere in the text is not found by the substring
template. -/
theorem outerFindSub_none (T : List Char) : ∀ text, hasSeq T text = false →
    outerFindSub false T text = none := by
  intro text
  induction text with
  | nil =>
      intro h
      rw [outerFindSub, scanTok_none T [] h]
      rfl
  | cons c cs ih =>
      intro h
      have h' := h
      simp only [hasSeq, Bool.or_eq_false_iff] at h'
      obtain ⟨h1, h2⟩ := h'
      rw [outerFindSub, scanTok_none T cs h2, scanTok_none T (c :: cs) h, ih h2]
      simp [orOpt]

/-- Every special character escaped by `regex.escape` is a non-word
character. -/
theorem isMeta_not_word (c : Char) (h : isMeta c = true) : isWordChar c = false := by
  simp only [isMeta, Bool.or_eq_true, beq_iff_eq] at h
  repeat' rcases h with h | h
  all_goals decide

/-- A non-special character differs from every special character. -/
theorem beq_false_of_not_meta (c x : Char) (hx : isMeta x = true) (h : isMeta c = false) :
    (c == x) = false := by
  by_cases hcx : c = x
  · subst hcx; rw [hx] at h; cases h
  · simpa using hcx

/-- The escaped form of a term parses back to the term itself. -/
theorem litOf_escape (t : List Char) : litOf (regexEscape t) = some t := by
  induction t with
  | nil => rfl
  | cons c cs ih =>
      by_cases h : isMeta c = true
      · have hw : isWordChar c = false := isMeta_not_word c h
        simp only [regexEscape, h, if_true, List.cons_append, List.nil_append]
        rw [litOf.eq_def]
        simp [hw, ih]
      · have h2 : isMeta c = false := by simpa using h
        have hb : (c == '\\') = false := beq_false_of_not_meta c '\\' (by decide) h2
        simp only [regexEscape, h2, if_false, Bool.false_eq_true, List.cons_append, List.nil_append]
        rw [litOf.eq_def]
        simp [hb, h2, ih]

/-- The escaped form of a term always compiles. -/
theorem patBadAux_escape (t : List Char) : patBadAux (regexEscape t) 0 false = false := by
  induction t with
  | nil => rfl
  | cons c cs ih =>
      by_cases h : isMeta c = true
      · simp only [regexEscape, h, if_true, List.cons_append, List.nil_append]
        rw [patBadAux.eq_def]
        simp [ih]
      · have h2 : isMeta c = false := by simpa using h
        have hb : (c == '\\') = false := beq_false_of_not_meta c '\\' (by decide) h2
        have hlb : (c == '[') = false := beq_false_of_not_meta c '[' (by decide) h2
        have hpo : (c == '(') = false := beq_false_of_not_meta c '(' (by decide) h2
        have hpc : (c == ')') = false := beq_false_of_not_meta c ')' (by decide) h2
        simp only [regexEscape, h2, if_false, Bool.false_eq_true, List.cons_append, List.nil_append]
        rw [patBadAux.eq_def]
        simp [hb, hlb, hpo, hpc, ih]

/-- The escaped form of a term always compiles (top level form). -/
theorem patBad_escape (t : List Char) : patBad (regexEscape t) = false :=
  patBadAux_escape t

/-- In non-regex, case-sensitive mode, a line that does not contain the term
gets zero matches from the highlighter. -/
theorem scanHighlight_zero (t line : List Char) (h : hasSeq t line = false) :
    (scanHighlight false false t line).2 = 0 := by
  unfold scanHighlight highlight_search_term_tokens_in_text
  simp only [patBad_escape, litOf_escape, if_false, Bool.false_eq_true]
  rw [outerLoopF]
  simp [outerFind, outerFindSub_none t line h]

/-- Processing a term updates its running total by the highlighter count of
the line; on a pre-filtered line the highlighter count is itself zero, so the
equation holds unconditionally. -/
theorem procTerm_counts_self (ic rxf : Bool) (maxN : Option Int) (i : Nat) (ref : Option (List Char))
    (line : List Char) (st : ScanState) (t : List Char) :
    (procTerm ic rxf maxN i ref line st t).counts t =
      st.counts t + (scanHighlight ic rxf t line).2 := by
  by_cases hp : (ic || rxf || hasSeq t line) = true
  · by_cases hc : ((scanHighlight ic rxf t line).2 != 0 && capOK maxN (st.counts t)) = true <;>
      simp [procTerm, hp, hc]
  · have h3 : (ic = false ∧ rxf = false) ∧ hasSeq t line = false := by
      simpa [Bool.or_eq_true] using hp
    obtain ⟨⟨e1, e2⟩, e3⟩ := h3
    subst e1; subst e2
    simp [procTerm, e3, scanHighlight_zero t line e3]

/-- Processing a term appends its example row exactly when the recording
condition of the script holds. -/
theorem procTerm_rows_self (ic rxf : Bool) (maxN : Option Int) (i : Nat) (ref : Option (List Char))
    (line : List Char) (st : ScanState) (t : List Char) :
    (procTerm ic rxf maxN i ref line st t).rows t =
      st.rows t ++
        (if (scanHighlight ic rxf t line).2 != 0 && capOK maxN (st.counts t) then
           [rowFmt i ref (scanHighlight ic rxf t line).1]
         else []) := by
  by_cases hp : (ic || rxf || hasSeq t line) = true
  · by_cases hc : ((scanHighlight ic rxf t line).2 != 0 && capOK maxN (st.counts t)) = true <;>
      simp [procTerm, hp, hc]
  · have h3 : (ic = false ∧ rxf = false) ∧ hasSeq t line = false := by
      simpa [Bool.or_eq_true] using hp
    obtain ⟨⟨e1, e2⟩, e3⟩ := h3
    subst e1; subst e2
    simp [procTerm, e3, scanHighlight_zero t line e3]

/-- Processing one term leaves every other key of both dictionaries
untouched. -/
theorem procTerm_other (ic rxf : Bool) (maxN : Option Int) (i : Nat) (ref : Option (List Char))
    (line : List Char) (st : ScanState) (u k : List Char) (hk : k ≠ u) :
    (procTerm ic rxf maxN i ref line st u).counts k = st.counts k ∧
    (procTerm ic rxf maxN i ref line st u).rows k = st.rows k := by
  by_cases hp : (ic || rxf || hasSeq u line) = true
  · by_cases hc : ((scanHighlight ic rxf u line).2 != 0 && capOK maxN (st.counts u)) = true <;>
      simp [procTerm, hp, hc, hk]
  · simp [procTerm, hp]

/-- The inner term loop does not touch the entries of a term not in the list. -/
theorem procLine_not_mem (ic rxf : Bool) (maxN : Option Int) (i : Nat) (ref : Option (List Char))
    (line : List Char) :
    ∀ (ts : List (List Char)) (st : ScanState) (t : List Char), t ∉ ts →
      (procLine ic rxf maxN i ref line ts st).counts t = st.counts t ∧
      (procLine ic rxf maxN i ref line ts st).rows t = st.rows t := by
  intro ts
  induction ts with
  | nil => intro st t _; exact ⟨rfl, rfl⟩
  | cons u us ih =>
      intro st t ht
      have hne : t ≠ u := fun e => ht (e ▸ List.mem_cons_self u us)
      have h1 := procTerm_other ic rxf maxN i ref line st u t hne
      have h2 := ih (procTerm ic rxf maxN i ref line st u) t (fun hm => ht (List.mem_cons_of_mem u hm))
      unfold procLine at h2 ⊢
      simp only [List.foldl_cons]
      exact ⟨h2.1.trans h1.1, h2.2.trans h1.2⟩

/-- Effect of the inner term loop on the entries of one of the (pairwise
distinct) terms: count grows by the highlighter count, and a row is appended
exactly under the recording condition of the script. -/
theorem procLine_mem (ic rxf : Bool) (maxN : Option Int) (i : Nat) (ref : Option (List Char))
    (line : List Char) :
    ∀ (ts : List (List Char)) (st : ScanState) (t : List Char), t ∈ ts → ts.Nodup →
      (procLine ic rxf maxN i ref line ts st).counts t =
        st.counts t + (scanHighlight ic rxf t line).2 ∧
      (procLine ic rxf maxN i ref line ts st).rows t =
        st.rows t ++
          (if (scanHighlight ic rxf t line).2 != 0 && capOK maxN (st.counts t) then
             [rowFmt i ref (scanHighlight ic rxf t line).1]
           else []) := by
  intro ts
  induction ts with
  | nil => intro st t ht; simp at ht
  | cons u us ih =>
      intro st t ht hnd
      rcases List.mem_cons.mp ht with he | hm
      · subst he
        have hus : t ∉ us := (List.nodup_cons.mp hnd).1
        have h2 := procLine_not_mem ic rxf maxN i ref line us
          (procTerm ic rxf maxN i ref line st t) t hus
        unfold procLine at h2 ⊢
        simp only [List.foldl_cons]
        refine ⟨?_, ?_⟩
        · rw [h2.1, procTerm_counts_self]
        · rw [h2.2, procTerm_rows_self]
      · have hne : t ≠ u := by
          rintro rfl
          exact (List.nodup_cons.mp hnd).1 hm
        have h1 := procTerm_other ic rxf maxN i ref line st u t hne
        have h2 := ih (procTerm ic rxf maxN i ref line st u) t hm (List.nodup_cons.mp hnd).2
        unfold procLine at h2 ⊢
        simp only [List.foldl_cons]
        refine ⟨?_, ?_⟩
        · rw [h2.1, h1.1]
        · rw [h2.2, h1.2, h1.1]

/-- Closed form of the scanning loop at one of the (pairwise distinct) terms:
the final count adds the per-line highlighter totals, and the final row list
appends exactly the reference recording trace. -/
theorem scanLoop_spec (ic rxf : Bool) (maxN : Option Int) (refs : Option (List (List Char)))
    (ts : List (List Char)) (t : List Char) (ht : t ∈ ts) (hnd : ts.Nodup) :
    ∀ (lines : List (List Char)) (i : Nat) (st : ScanState),
      (scanLoop ic rxf maxN refs ts i lines st).counts t =
        st.counts t + hlTotal ic rxf t lines ∧
      (scanLoop ic rxf maxN refs ts i lines st).rows t =
        st.rows t ++ rowsByCount ic rxf maxN refs t i (st.counts t) lines := by
  intro lines
  induction lines with
  | nil => intro i st; simp [scanLoop, hlTotal, rowsByCount]
  | cons l ls ih =>
      intro i st
      rw [scanLoop]
      have hline := procLine_mem ic rxf maxN (i + 1) (refOf refs i) l ts st t ht hnd
      have hrec := ih (i + 1) (procLine ic rxf maxN (i + 1) (refOf refs i) l ts st)
      refine ⟨?_, ?_⟩
      · rw [hrec.1, hline.1]
        simp only [hlTotal, List.map_cons, List.sum_cons]
        omega
      · rw [hrec.2, hline.2, hline.1, rowsByCount]
        simp [List.append_assoc]

/-- The bounding invariant of the aggregation state: for every key, the
number of stored rows never exceeds the stored total match count, and when a
cap is configured it never exceeds the cap. -/
def boundedState (maxN : Option Int) (st : ScanState) : Prop :=
  ∀ k, (st.rows k).length ≤ st.counts k ∧
       ∀ v : Int, maxN = some v → (st.rows k).length ≤ v.toNat

/-- Processing one term preserves the bounding invariant: a row is only
appended when the stored total count (at least the number of stored rows) is
still below the cap, and the count then grows by at least one. -/
theorem procTerm_bounded (ic rxf : Bool) (maxN : Option Int) (i : Nat) (ref : Option (List Char))
    (line : List Char) (st : ScanState) (u : List Char) (h : boundedState maxN st) :
    boundedState maxN (procTerm ic rxf maxN i ref line st u) := by
  intro k
  by_cases hk : k = u
  · subst hk
    rw [procTerm_counts_self, procTerm_rows_self]
    by_cases hc : ((scanHighlight ic rxf k line).2 != 0 && capOK maxN (st.counts k)) = true
    · rw [hc]
      obtain ⟨hn, hcap⟩ := Bool.and_eq_true_iff.mp hc
      have hn2 : (scanHighlight ic rxf k line).2 ≠ 0 := by simpa using hn
      have hlen := (h k).1
      constructor
      · simp only [if_pos trivial, List.length_append, List.length_cons, List.length_nil]
        omega
      · intro v hv
        rw [hv] at hcap
        simp only [capOK, decide_eq_true_eq] at hcap
        simp only [if_pos trivial, List.length_append, List.length_cons, List.length_nil]
        omega
    · have hc2 : ((scanHighlight ic rxf k line).2 != 0 && capOK maxN (st.counts k)) = false := by
        simpa using hc
      rw [hc2]
      simp only [Bool.false_eq_true, if_false, List.append_nil]
      exact ⟨Nat.le_trans (h k).1 (Nat.le_add_right _ _), (h k).2⟩
  · rw [(procTerm_other ic rxf maxN i ref line st u k hk).1,
        (procTerm_other ic rxf maxN i ref line st u k hk).2]
    exact h k

/-- The inner term loop preserves the bounding invariant. -/
theorem procLine_bounded (ic rxf : Bool) (maxN : Option Int) (i : Nat) (ref : Option (List Char))
    (line : List Char) :
    ∀ (ts : List (List Char)) (st : ScanState), boundedState maxN st →
      boundedState maxN (procLine ic rxf maxN i ref line ts st) := by
  intro ts
  induction ts with
  | nil => intro st h; exact h
  | cons u us ih =>
      intro st h
      unfold procLine
      simp only [List.foldl_cons]
      exact ih (procTerm ic rxf maxN i ref line st u) (procTerm_bounded ic rxf maxN i ref line st u h)

/-- The scanning loop preserves the bounding invariant. -/
theorem scanLoop_bounded (ic rxf : Bool) (maxN : Option Int) (refs : Option (List (List Char)))
    (ts : List (List Char)) :
    ∀ (lines : List (List Char)) (i : Nat) (st : ScanState), boundedState maxN st →
      boundedState maxN (scanLoop ic rxf maxN refs ts i lines st) := by
  intro lines
  induction lines with
  | nil => intro i st h; exact h
  | cons l ls ih =>
      intro i st h
      rw [scanLoop]
      exact ih (i + 1) _ (procLine_bounded ic rxf maxN (i + 1) (refOf refs i) l ts st h)

/-- The final aggregation state of a run satisfies the bounding invariant. -/
theorem runScan_bounded (a : Args) : boundedState a.max_n_examples (runScan a) := by
  unfold runScan
  exact scanLoop_bounded a.ignore_case a.regex a.max_n_examples a.ref_lines (decodedTerms a)
    a.input_lines 0 initState (fun k => ⟨Nat.le_refl 0, fun v _ => Nat.zero_le _⟩)

/-- Characters of a substitution output come from the replacement or are
untouched characters of the input. -/
theorem mem_substAll {a c : Char} {rep : List Char} :
    ∀ {l : List Char}, a ∈ substAll c rep l → a ∈ rep ∨ (a ∈ l ∧ a ≠ c) := by
  intro l
  induction l with
  | nil => intro h; simp [substAll] at h
  | cons x xs ih =>
      intro h
      simp only [substAll, List.mem_append] at h
      rcases h with h | h
      · by_cases hxc : (x == c) = true
        · rw [if_pos hxc] at h
          exact Or.inl h
        · rw [if_neg (by simpa using hxc)] at h
          simp only [List.mem_singleton] at h
          subst h
          exact Or.inr ⟨List.mem_cons_self _ _, by simpa using hxc⟩
      · rcases ih h with h2 | ⟨h2, h3⟩
        · exact Or.inl h2
        · exact Or.inr ⟨List.mem_cons_of_mem _ h2, h3⟩

/-- No raw markup-significant character survives `guard_html`: the output
never contains a raw left angle, right angle, or double quote. -/
theorem guard_html_no_raw (s : List Char) :
    (guard_html s).contains '<' = false ∧ (guard_html s).contains '>' = false ∧
    (guard_html s).contains '"' = false := by
  have hlt : '<' ∉ guard_html s := by
    intro h
    unfold guard_html at h
    rcases mem_substAll h with h4 | ⟨h4, _⟩
    · exact absurd h4 (by decide)
    rcases mem_substAll h4 with h3 | ⟨h3, _⟩
    · exact absurd h3 (by decide)
    rcases mem_substAll h3 with h2 | ⟨_, hne⟩
    · exact absurd h2 (by decide)
    · exact hne rfl
  have hgt : '>' ∉ guard_html s := by
    intro h
    unfold guard_html at h
    rcases mem_substAll h with h4 | ⟨h4, _⟩
    · exact absurd h4 (by decide)
    rcases mem_substAll h4 with h3 | ⟨_, hne⟩
    · exact absurd h3 (by decide)
    · exact hne rfl
  have hq : '"' ∉ guard_html s := by
    intro h
    unfold guard_html at h
    rcases mem_substAll h with h4 | ⟨_, hne⟩
    · exact absurd h4 (by decide)
    · exact hne rfl
  exact ⟨by simpa using hlt, by simpa using hgt, by simpa using hq⟩

/-- Safe report fragments: concatenations of escaped pieces and the three
fixed markup strings of the highlighter.  Every character of the scanned line
that reaches such a fragment went through `guard_html`. -/
inductive SafeFrag : List Char → Prop
  | nil : SafeFrag []
  | esc (s rest : List Char) : SafeFrag rest → SafeFrag (guard_html s ++ rest)
  | tag (t rest : List Char) : (t = ylOpen ∨ t = redOpen ∨ t = spanClose) → SafeFrag rest →
      SafeFrag (t ++ rest)

/-- Safe fragments are closed under concatenation. -/
theorem SafeFrag.append {a b : List Char} (ha : SafeFrag a) (hb : SafeFrag b) :
    SafeFrag (a ++ b) := by
  induction ha with
  | nil => simpa using hb
  | esc s rest _ ih => rw [List.append_assoc]; exact SafeFrag.esc s _ ih
  | tag t rest ht _ ih => rw [List.append_assoc]; exact SafeFrag.tag t _ ht ih

/-- An escaped piece alone is a safe fragment. -/
theorem SafeFrag.guard (s : List Char) : SafeFrag (guard_html s) := by
  have := SafeFrag.esc s [] SafeFrag.nil
  simpa using this

/-- The inner highlighter loop emits only safe fragments. -/
theorem innerLoopF_safe (ic : Bool) (T : List Char) :
    ∀ (fuel : Nat) (rest2 : List Char), SafeFrag (innerLoopF ic T fuel rest2).1 := by
  intro fuel
  induction fuel with
  | zero => intro r; exact SafeFrag.guard r
  | succ n ih =>
      intro r
      rw [innerLoopF]
      cases h : innerFind ic T r with
      | none => exact SafeFrag.guard r
      | some g =>
          simp only [List.append_assoc]
          exact SafeFrag.esc _ _ (SafeFrag.tag _ _ (Or.inr (Or.inl rfl))
            (SafeFrag.esc _ _ (SafeFrag.tag _ _ (Or.inr (Or.inr rfl)) (ih g.2.2))))

/-- The outer highlighter loop emits only safe fragments. -/
theorem outerLoopF_safe (ic ftop : Bool) (T : List Char) :
    ∀ (fuel : Nat) (rest : List Char), SafeFrag (outerLoopF ic ftop T fuel rest).1 := by
  intro fuel
  induction fuel with
  | zero => intro r; exact SafeFrag.guard r
  | succ n ih =>
      intro r
      rw [outerLoopF]
      cases h : outerFind ic ftop T r with
      | none => exact SafeFrag.guard r
      | some g =>
          simp only [List.append_assoc]
          exact SafeFrag.esc _ _ (SafeFrag.tag _ _ (Or.inl rfl)
            (SafeFrag.esc _ _ (SafeFrag.tag _ _ (Or.inr (Or.inl rfl))
              (SafeFrag.esc _ _ (SafeFrag.tag _ _ (Or.inr (Or.inr rfl))
                ((innerLoopF_safe ic T _ _).append
                  (SafeFrag.tag _ _ (Or.inr (Or.inr rfl)) (ih g.2.2.2.2))))))))

/-- A string with no well-formed backslash-u escape admits no decoder match. -/
theorem findEscape_none (s : List Char) (h : hasUEscape s = false) : findEscape s = none := by
  induction s with
  | nil => rfl
  | cons c cs ih =>
      simp only [hasUEscape, Bool.or_eq_false_iff] at h
      obtain ⟨h1, h2⟩ := h
      have he : escAt (c :: cs) = none := by
        cases hx : escAt (c :: cs)
        · rfl
        · rw [hx] at h1; simp at h1
      rw [findEscape, he, ih h2]
      simp

/-- The decoder returns a string with no well-formed escape unchanged. -/
theorem decode_noEscape (s : List Char) (h : hasUEscape s = false) :
    decode_unicode_escape s = s := by
  unfold decode_unicode_escape
  rw [decodeF, findEscape_none s h]

/-- Concrete run used for the claims below: a capped search for `cat` over a
line with three matches followed by a line with one match. -/
def argsC3 : Args :=
  ⟨["cat cat cat\n".data, "cat\n".data], none, ["cat".data], some 2, false, false⟩

/-- Concrete run used for the claims below: a search whose term contains a
literal left angle bracket. -/
def argsC4 : Args :=
  ⟨["x a<b y\n".data], none, ["a<b".data], none, false, false⟩

/-- Concrete run used for the claims below: regex mode with one invalid and
one valid pattern. -/
def argsC5 : Args :=
  ⟨["x cat y\n".data], none, ["[".data, "cat".data], none, false, true⟩

/-- Claim C1: for every input file and every search term of a run (the
decoded terms taken pairwise distinct, as a shared dictionary entry would
otherwise be reported for several identical terms at once), the total match
count reported for the term in the report and on the diagnostic stream equals
the sum over all lines of the per-line match counts returned by the
highlighter; in particular the count of every line is added to the running
total even after the example cap has been reached, since the accumulation in
the scan is unconditional. -/
theorem C1_total_matches_sum (a : Args) (t : List Char)
    (ht : t ∈ decodedTerms a) (hnd : (decodedTerms a).Nodup) :
    reportedCount a t = hlTotal a.ignore_case a.regex t a.input_lines := by
  have h := (scanLoop_spec a.ignore_case a.regex a.max_n_examples a.ref_lines
    (decodedTerms a) t ht hnd a.input_lines 0 initState).1
  simpa [reportedCount, runScan, initState] using h

/-- Witness for C1 at a concrete run. -/
theorem C1_witness :
    reportedCount argsC3 "cat".data = hlTotal false false "cat".data argsC3.input_lines :=
  C1_total_matches_sum argsC3 "cat".data (by decide) (by decide)

/-- Claim C2: when `max_n_examples` is set to `v`, the example-row list of
every term never exceeds the cap (a negative cap admits no row at all, which
the `Int.toNat` bound also expresses); when it is unset, the row list of each
of the pairwise distinct terms holds exactly one row per line on which the
highlighter reports at least one match, as recorded by the capless recording
trace. -/
theorem C2_example_rows_bounded (a : Args) (t : List Char) :
    (∀ v : Int, a.max_n_examples = some v → ((runScan a).rows t).length ≤ v.toNat)
  ∧ (a.max_n_examples = none → t ∈ decodedTerms a → (decodedTerms a).Nodup →
      (runScan a).rows t =
        rowsByCount a.ignore_case a.regex none a.ref_lines t 0 0 a.input_lines) := by
  constructor
  · intro v hv
    exact (runScan_bounded a t).2 v hv
  · intro hm ht hnd
    have h := (scanLoop_spec a.ignore_case a.regex a.max_n_examples a.ref_lines
      (decodedTerms a) t ht hnd a.input_lines 0 initState).2
    rw [hm] at h
    simpa [runScan, hm, initState] using h

/-- Witness for C2 at two concrete runs (capped and capless). -/
theorem C2_witness :
    ((runScan argsC3).rows "cat".data).length ≤ (2 : Int).toNat
  ∧ (runScan argsC4).rows "a<b".data =
      rowsByCount false false none none "a<b".data 0 0 argsC4.input_lines :=
  ⟨(C2_example_rows_bounded argsC3 "cat".data).1 2 rfl,
   (C2_example_rows_bounded argsC4 "a<b".data).2 rfl (by decide) (by decide)⟩

/-- Counterexample to claim C3 as stated.  In the run `argsC3` (term `cat`,
cap 2), line 1 yields three matches and one stored row; before line 2 the
stored example count is 1, below the cap 2, and line 2 yields one match, so
the stated recording rule (record when the number of rows recorded so far is
below the cap) would record a second row.  The program records none: its
guard compares the stored total match count, already 3. -/
theorem C3_counterexample :
    (scanHighlight false false "cat".data "cat\n".data).2 = 1
  ∧ ((procLine false false (some 2) 1 (refOf none 0) "cat cat cat\n".data
        ["cat".data] initState).rows "cat".data).length = 1
  ∧ (procLine false false (some 2) 1 (refOf none 0) "cat cat cat\n".data
        ["cat".data] initState).counts "cat".data = 3
  ∧ ((runScan argsC3).rows "cat".data).length = 1 := by
  refine ⟨by decide, by decide, by decide, by decide⟩

/-- Claim C3 as amended: an example row is recorded for a (line, term) pair
exactly when the highlighter reports at least one match and the stored TOTAL
MATCH COUNT of the term accumulated over the previous lines (not the number
of rows recorded so far) is below the configured cap (or no cap is set); the
row captures line number, reference ID, and highlighted text.  This is the
recording trace `rowsByCount`. -/
theorem C3_amended_recording (a : Args) (t : List Char)
    (ht : t ∈ decodedTerms a) (hnd : (decodedTerms a).Nodup) :
    (runScan a).rows t =
      rowsByCount a.ignore_case a.regex a.max_n_examples a.ref_lines t 0 0 a.input_lines := by
  have h := (scanLoop_spec a.ignore_case a.regex a.max_n_examples a.ref_lines
    (decodedTerms a) t ht hnd a.input_lines 0 initState).2
  simpa [runScan, initState] using h

/-- Witness for the amended C3 at the concrete capped run. -/
theorem C3_witness :
    (runScan argsC3).rows "cat".data =
      rowsByCount false false (some 2) none "cat".data 0 0 argsC3.input_lines :=
  C3_amended_recording argsC3 "cat".data (by decide) (by decide)

set_option maxRecDepth 4000 in
/-- Counterexample to claim C4 as stated.  The summary line of the report
writes the search term without `guard_html`: for the term `a<b` the report
body contains the raw character sequence `</b> a<b &nbsp;` (the literal left
angle of the term unescaped, directly after the bold markup of the summary
label), and the escaped form `a&lt;b &nbsp;` appears nowhere, so a literal
`<` of a search term reaches the output raw. -/
theorem C4_counterexample_raw_term :
    hasSeq "</b> a<b &nbsp;".data (renderBody argsC4 (fun _ => [])) = true
  ∧ hasSeq "a&lt;b &nbsp;".data (renderBody argsC4 (fun _ => [])) = false := by
  refine ⟨by decide, by decide⟩

/-- Claim C4 as amended: escaping is total for the scanned line text — the
output of `guard_html` never contains a raw `<`, `>`, or `"`, and in literal
(non-regex) mode every fragment of the input line emitted by the highlighter
passes through `guard_html` (the output is a concatenation of escaped pieces
and the three fixed markup strings) — but a search term written on the
summary line of the report appears raw, as the counterexample shows. -/
theorem C4_amended_escaping :
    (∀ s : List Char,
       (guard_html s).contains '<' = false ∧ (guard_html s).contains '>' = false ∧
       (guard_html s).contains '"' = false)
  ∧ (∀ (t text : List Char) (ic ftop : Bool),
       SafeFrag (highlight_search_term_tokens_in_text (regexEscape t) text ic ftop).1) := by
  refine ⟨guard_html_no_raw, ?_⟩
  intro t text ic ftop
  unfold highlight_search_term_tokens_in_text
  simp only [patBad_escape, litOf_escape, if_false, Bool.false_eq_true]
  exact outerLoopF_safe ic ftop t (text.length + 1) text

/-- Claim C5: a search pattern that does not compile inside the highlighter
templates (such as the regex-mode term `[`, an unclosed character class) is
caught per term: the highlighter returns the original unescaped line text
with zero matches instead of aborting, and the aggregation of every other
search term of the run is exactly what a run over that term alone produces,
so the other results are unaffected. -/
theorem C5_invalid_regex_recovery :
    patBad "[".data = true
  ∧ (∀ (p text : List Char) (ic ftop : Bool), patBad p = true →
       highlight_search_term_tokens_in_text p text ic ftop = (text, 0))
  ∧ (∀ (a : Args) (t : List Char), t ∈ decodedTerms a → (decodedTerms a).Nodup →
       (runScan a).counts t =
         (scanLoop a.ignore_case a.regex a.max_n_examples a.ref_lines [t] 0 a.input_lines
           initState).counts t
     ∧ (runScan a).rows t =
         (scanLoop a.ignore_case a.regex a.max_n_examples a.ref_lines [t] 0 a.input_lines
           initState).rows t) := by
  refine ⟨by decide, ?_, ?_⟩
  · intro p text ic ftop h
    unfold highlight_search_term_tokens_in_text
    rw [h]
    rfl
  · intro a t ht hnd
    have hall := scanLoop_spec a.ignore_case a.regex a.max_n_examples a.ref_lines
      (decodedTerms a) t ht hnd a.input_lines 0 initState
    have hsolo := scanLoop_spec a.ignore_case a.regex a.max_n_examples a.ref_lines
      [t] t (List.mem_singleton_self t) (List.nodup_singleton t) a.input_lines 0 initState
    unfold runScan
    exact ⟨hall.1.trans hsolo.1.symm, hall.2.trans hsolo.2.symm⟩

/-- Witness for C5 at a concrete regex-mode run with the invalid pattern and
a second valid term: the invalid pattern yields the untouched line with zero
matches, and the valid term aggregates as if it ran alone. -/
theorem C5_witness :
    highlight_search_term_tokens_in_text "[".data "x cat y\n".data false false
      = ("x cat y\n".data, 0)
  ∧ (runScan argsC5).counts "cat".data =
      (scanLoop false true none none ["cat".data] 0 argsC5.input_lines initState).counts "cat".data := by
  refine ⟨C5_invalid_regex_recovery.2.1 "[".data "x cat y\n".data false false (by decide), ?_⟩
  exact (C5_invalid_regex_recovery.2.2 argsC5 "cat".data (by decide) (by decide)).1

set_option maxRecDepth 8000 in
/-- Claim C6: on the line `concatenate cat scatter` with term `cat`,
full-token-only mode highlights only the standalone token (one match, the
substrings inside `concatenate` and `scatter` left unmarked), while substring
mode marks the occurrence inside all three tokens (three matches). -/
theorem C6_full_token_vs_substring :
    highlight_search_term_tokens_in_text (regexEscape "cat".data)
        "concatenate cat scatter".data false true
      = ("concatenate<span style=\"background-color:yellow;\"> <span style=\"color:red;\">cat</span> </span>scatter".data, 1)
  ∧ highlight_search_term_tokens_in_text (regexEscape "cat".data)
        "concatenate cat scatter".data false false
      = ("<span style=\"background-color:yellow;\">con<span style=\"color:red;\">cat</span>enate </span><span style=\"background-color:yellow;\"><span style=\"color:red;\">cat</span> </span><span style=\"background-color:yellow;\">s<span style=\"color:red;\">cat</span>ter</span>".data, 3) := by
  refine ⟨by decide, by decide⟩

/-- Claim C7: the term decoder maps the escape of `A` to `A`, returns any
string containing no four-hex-digit backslash-u escape unchanged, and leaves
a malformed escape with fewer than four hex digits untouched (it is total, so
no error can be raised). -/
theorem C7_decoder :
    decode_unicode_escape "\\u0041".data = "A".data
  ∧ (∀ s : List Char, hasUEscape s = false → decode_unicode_escape s = s)
  ∧ decode_unicode_escape "\\u12".data = "\\u12".data :=
  ⟨by decide, decode_noEscape, by decide⟩

/-- Witness for C7 on a concrete escape-free string. -/
theorem C7_witness : decode_unicode_escape "abc".data = "abc".data :=
  C7_decoder.2.1 "abc".data (by decide)

/-- Counterexample to claim C8 as stated: the term `Aλ` starts with a
printable ASCII character, so the summary check succeeds and the term is
printed literally, although the term is not entirely within the printable
ASCII range — `regex.match` anchors only at the start of the term. -/
theorem C8_counterexample_not_entire :
    ¬ ((asciiHeadCheck ['A', 'λ'] = true) ↔ (∀ c ∈ ['A', 'λ'], ' ' ≤ c ∧ c ≤ '~'))
  ∧ termSummary false false 0 (fun _ => []) ['A', 'λ'] =
      termSummaryLiteral false 0 ['A', 'λ'] := by
  refine ⟨by decide, rfl⟩

/-- Claim C8 as amended: the summary prints the term literally exactly when
the term is nonempty and its FIRST character lies in the printable ASCII
range (the remaining characters are not examined); otherwise the term is
represented only through the following table, which lists one row per
character of the term with its code point and unicode name. -/
theorem C8_amended_first_char :
    (∀ (c : Char) (cs : List Char), asciiHeadCheck (c :: cs) = (' ' ≤ c && c ≤ '~'))
  ∧ asciiHeadCheck [] = false
  ∧ (∀ (nameFn : Char → List Char) (t : List Char),
       (char_unicode_name_rows nameFn t).length = t.length)
  ∧ (∀ (ic rxf : Bool) (n : Nat) (nameFn : Char → List Char) (t : List Char),
       termSummary ic rxf n nameFn t =
         if asciiHeadCheck t then termSummaryLiteral ic n t
         else termSummaryTabled ic n nameFn t) := by
  refine ⟨?_, rfl, ?_, fun _ _ _ _ _ => rfl⟩
  · intro c cs
    by_cases h : (' ' ≤ c && c ≤ '~') = true <;>
      simp [asciiHeadCheck, List.takeWhile_cons, h]
  · intro nameFn t
    simp [char_unicode_name_rows]

/-- Evaluation of the summary line at the failing inputs of claim C9: with
`--regex` active and `--ignore_case` inactive the `regex, ` qualifier is
absent, and with `--ignore_case` active and `--regex` inactive it is present,
because the source computes `regex_clase` from `args.ignore_case`; the
case-insensitive qualifier and the pluralization behave as claimed. -/
theorem C9_qualifier_evaluation :
    hasSeq "regex, ".data (termSummary false true 2 (fun _ => []) "cat".data) = false
  ∧ hasSeq "regex, ".data (termSummary true false 2 (fun _ => []) "cat".data) = true
  ∧ hasSeq "case-insensitive, ".data (termSummary true false 2 (fun _ => []) "cat".data) = true
  ∧ hasSeq "case-insensitive, ".data (termSummary false true 2 (fun _ => []) "cat".data) = false
  ∧ hasSeq " 1 instance)".data (termSummary false false 1 (fun _ => []) "cat".data) = true
  ∧ hasSeq " 0 instances)".data (termSummary false false 0 (fun _ => []) "cat".data) = true
  ∧ hasSeq " 2 instances)".data (termSummary false false 2 (fun _ => []) "cat".data) = true := by
  refine ⟨by decide, by decide, by decide, by decide, by decide, by decide, by decide⟩

set_option maxRecDepth 8000 in
/-- Claim C10: the scanning loop of `main` always calls the highlighter with
`full_token_only_p = False` (the omitted default), whatever the flags, so
every run highlights in substring mode; the second part shows the two modes
really differ on the standard example, so the omission is substantive. -/
theorem C10_always_substring_mode :
    (∀ (ic rxf : Bool) (t line : List Char),
       scanHighlight ic rxf t line =
         highlight_search_term_tokens_in_text (if rxf then t else regexEscape t) line ic false)
  ∧ highlight_search_term_tokens_in_text (regexEscape "cat".data)
        "concatenate cat scatter\n".data false false
      ≠ highlight_search_term_tokens_in_text (regexEscape "cat".data)
        "concatenate cat scatter\n".data false true :=
  ⟨fun _ _ _ _ => rfl, by decide⟩
